import Mathlib

/-!
Verification development for the element-tagging pipeline of
`vite-plugin-component-debugger`.

Strings are modelled as `List Char` (one entry per UTF-16-ish code point;
all string literals involved in the claims are ASCII, where the two notions
of length coincide).  JavaScript functions from the repository are
translated into executable Lean definitions close to the source text:

* `computeInsertPosition` — the insertion-point locator of
  `src/helpers/ast-walker.ts` (`tagElements`, insertion-point computation),
  identical to the inline copy in `src/plugin.ts`;
* `lastIndexOfSeq` — JavaScript `String.prototype.lastIndexOf` for a
  non-empty needle, restricted to the uses in the locator.
-/

/-- JavaScript `code.substring(start, end)` for `start ≤ end` (the only way
the repository calls it): characters from index `start` up to, excluding,
`end`, clamped to the string. -/
def substringOf (code : List Char) (s e : Nat) : List Char :=
  (code.drop s).take (e - s)

/-- Scan start positions `i, i-1, …, 0` and return the first (hence
greatest) position where `pat` occurs in `hay`. -/
def lastIndexFrom (hay pat : List Char) : Nat → Option Nat
  | 0 => if pat.isPrefixOf hay then some 0 else none
  | i + 1 =>
    if pat.isPrefixOf (hay.drop (i + 1)) then some (i + 1)
    else lastIndexFrom hay pat i

/-- JavaScript `hay.lastIndexOf(pat)` (for non-empty `pat`), returning
`none` instead of `-1`: the greatest index at which `pat` occurs in
`hay`. -/
def lastIndexOfSeq (hay pat : List Char) : Option Nat :=
  lastIndexFrom hay pat hay.length

/-- The closing delimiter scanned for by the insertion-point locator:
`'/>'` for self-closing elements, `'>'` otherwise. -/
def tagDelim (selfClosing : Bool) : List Char :=
  if selfClosing then ['/', '>'] else ['>']

/-- Insertion-point computation of `tagElements`
(`src/helpers/ast-walker.ts`, lines 343–379; the same code appears inline
in `src/plugin.ts`).  Returns the offset at which the generated attribute
text is spliced, together with whether the fallback warning was printed
(`console.warn` there is guarded by `if (debug)`). -/
def computeInsertPosition (code : List Char) (elementStart elementEnd : Nat)
    (selfClosing debug : Bool) : Nat × Bool :=
  let elementCode := substringOf code elementStart elementEnd
  if selfClosing then
    match lastIndexOfSeq elementCode ['/', '>'] with
    | some i => (elementStart + i, false)
    | none => (elementEnd - 2, debug)
  else
    match lastIndexOfSeq elementCode ['>'] with
    | some i => (elementStart + i, false)
    | none => (elementEnd - 1, debug)

/-- Does `pat` occur contiguously anywhere in `s`?  Used to state the
absence of an unescaped `<script>` tag and the presence of truncation
markers. -/
def containsSub (pat s : List Char) : Bool :=
  (List.range (s.length + 1)).any (fun i => pat.isPrefixOf (s.drop i))

/-- Does `s` end with `pat`? -/
def hasSuffixSeq (pat s : List Char) : Bool :=
  s.drop (s.length - pat.length) == pat

/-- A value of a captured JSX prop: the walker records only string
literals and bare boolean-true props (`tagElements`, prop collection). -/
inductive PropValue
  | str (s : List Char)
  | boolTrue
deriving DecidableEq

/-- JavaScript object assignment `m[k] = v` on an association list:
update the value in place when the key is present, append otherwise. -/
def objSet {α : Type} (m : List (List Char × α)) (k : List Char) (v : α) :
    List (List Char × α) :=
  match m with
  | [] => [(k, v)]
  | (k', v') :: rest =>
    if k' = k then (k, v) :: rest else (k', v') :: objSet rest k v

/-- JavaScript object read `m[k]`. -/
def lookupVal {α : Type} (m : List (List Char × α)) (k : List Char) : Option α :=
  match m with
  | [] => none
  | (k', v) :: rest => if k' = k then some v else lookupVal rest k

/-- `Object.keys`. -/
def keysOf {α : Type} (m : List (List Char × α)) : List (List Char) :=
  m.map Prod.fst

/-- Lower-case hexadecimal digit. -/
def hexDigitChar (n : Nat) : Char :=
  if n < 10 then Char.ofNat ('0'.toNat + n) else Char.ofNat ('a'.toNat + (n - 10))

/-- `JSON.stringify` escaping of one character inside a JSON string
literal. -/
def jsonEscapeChar (c : Char) : List Char :=
  if c = '"' then ['\\', '"']
  else if c = '\\' then ['\\', '\\']
  else if c = '\n' then ['\\', 'n']
  else if c = '\r' then ['\\', 'r']
  else if c = '\t' then ['\\', 't']
  else if c = '\x08' then ['\\', 'b']
  else if c = '\x0c' then ['\\', 'f']
  else if c.toNat < 32 then
    ['\\', 'u', '0', '0', hexDigitChar (c.toNat / 16), hexDigitChar (c.toNat % 16)]
  else [c]

def jsonEscape (s : List Char) : List Char :=
  s.flatMap jsonEscapeChar

/-- JavaScript `parts.join(sep)`. -/
def joinSep {α : Type} (sep : List α) : List (List α) → List α
  | [] => []
  | [x] => x
  | x :: y :: rest => x ++ sep ++ joinSep sep (y :: rest)

/-- A JSON string literal. -/
def jsonQuote (s : List Char) : List Char :=
  '"' :: (jsonEscape s ++ ['"'])

/-- One `"key":value` member of a serialized JSON object. -/
def jsonEntry : List Char × PropValue → List Char
  | (k, .str s) => jsonQuote k ++ (':' :: jsonQuote s)
  | (k, .boolTrue) => jsonQuote k ++ (':' :: "true".data)

/-- `JSON.stringify` of a flat object whose values are strings or `true`
(the only shapes the metadata object can take). -/
def jsonStringifyObj (entries : List (List Char × PropValue)) : List Char :=
  '{' :: (joinSep ",".data (entries.map jsonEntry) ++ ['}'])

/-- JavaScript `s.replace(/c/g, r)` for a single-character pattern. -/
def replaceAllChar (c : Char) (r : List Char) (s : List Char) : List Char :=
  s.flatMap (fun x => if x = c then r else [x])

/-- The `escapeHtml` helper of `generateAttributes`
(`src/helpers/attribute-generator.ts`, lines 267–274): the five
replacements applied in source order (`&`, `<`, `>`, `"`, `'`). -/
def escapeHtml (s : List Char) : List Char :=
  replaceAllChar '\'' "&#39;".data
    (replaceAllChar '"' "&quot;".data
      (replaceAllChar '>' "&gt;".data
        (replaceAllChar '<' "&lt;".data
          (replaceAllChar '&' "&amp;".data s))))

/-- Claim-side description of HTML-attribute escaping: each of the five
special characters replaced by its HTML entity in a single pass. -/
def htmlEntityOf (c : Char) : List Char :=
  if c = '&' then "&amp;".data
  else if c = '<' then "&lt;".data
  else if c = '>' then "&gt;".data
  else if c = '"' then "&quot;".data
  else if c = '\'' then "&#39;".data
  else [c]

/-- UTF-8 bytes of one character (what `Buffer.from(str)` produces per
code point). -/
def utf8BytesOf (c : Char) : List Nat :=
  let n := c.toNat
  if n < 0x80 then [n]
  else if n < 0x800 then [0xC0 + n / 64, 0x80 + n % 64]
  else if n < 0x10000 then [0xE0 + n / 4096, 0x80 + (n / 64) % 64, 0x80 + n % 64]
  else [0xF0 + n / 262144, 0x80 + (n / 4096) % 64, 0x80 + (n / 64) % 64, 0x80 + n % 64]

def utf8Encode (s : List Char) : List Nat :=
  s.flatMap utf8BytesOf

/-- Standard base64 alphabet. -/
def base64Char (n : Nat) : Char :=
  if n < 26 then Char.ofNat ('A'.toNat + n)
  else if n < 52 then Char.ofNat ('a'.toNat + (n - 26))
  else if n < 62 then Char.ofNat ('0'.toNat + (n - 52))
  else if n = 62 then '+'
  else '/'

/-- Base64 of a byte list, three bytes per group, `=`-padded. -/
def base64Groups : List Nat → List Char
  | [] => []
  | [b1] => [base64Char (b1 / 4), base64Char (b1 % 4 * 16), '=', '=']
  | [b1, b2] =>
    [base64Char (b1 / 4), base64Char (b1 % 4 * 16 + b2 / 16),
     base64Char (b2 % 16 * 4), '=']
  | b1 :: b2 :: b3 :: rest =>
    base64Char (b1 / 4) :: base64Char (b1 % 4 * 16 + b2 / 16) ::
      base64Char (b2 % 16 * 4 + b3 / 64) :: base64Char (b3 % 64) ::
        base64Groups rest

/-- `encodeBase64` of `src/utils.ts`:
`Buffer.from(str).toString('base64')`. -/
def encodeBase64 (s : List Char) : List Char :=
  base64Groups (utf8Encode s)

/-- Characters `encodeURIComponent` leaves unescaped. -/
def uriUnreserved (c : Char) : Bool :=
  c.isAlpha || c.isDigit ||
    ['-', '_', '.', '!', '~', '*', '\'', '(', ')'].contains c

/-- Upper-case hexadecimal digit, as produced by `encodeURIComponent`. -/
def percentHexChar (n : Nat) : Char :=
  if n < 10 then Char.ofNat ('0'.toNat + n) else Char.ofNat ('A'.toNat + (n - 10))

/-- JavaScript `encodeURIComponent`: unreserved characters kept, all
others percent-encoded byte by byte. -/
def encodeURIComponent (s : List Char) : List Char :=
  s.flatMap (fun c =>
    if uriUnreserved c then [c]
    else (utf8BytesOf c).flatMap
      (fun b => ['%', percentHexChar (b / 16), percentHexChar (b % 16)]))

/-- The built-in attribute names of `src/types.ts` (`AttributeName`). -/
inductive AttributeName
  | id | name | path | line | file | component | metadata
deriving DecidableEq, BEq

/-- `MetadataEncoding` of `src/types.ts`. -/
inductive MetadataEncoding
  | json | base64 | none
deriving DecidableEq

/-- `InternalComponentInfo` of `src/types.ts`: per-element data collected
by the walker. -/
structure InternalComponentInfo where
  path : List Char
  line : Nat
  column : Nat
  file : List Char
  name : List Char
  props : Option (List (List Char × PropValue))
  content : Option (List Char)

/-- The read-only `ComponentInfo` view handed to user callbacks. -/
structure ComponentInfoView where
  elementName : List Char
  filePath : List Char
  line : Nat
  column : Nat
  props : Option (List (List Char × PropValue))
  content : Option (List Char)

def mkView (info : InternalComponentInfo) : ComponentInfoView :=
  ⟨info.name, info.path, info.line, info.column, info.props, info.content⟩

/-- Result of calling one user transformer: a string, a non-string value
(rejected with a warning, original kept), or a thrown exception (caught,
original kept) — `attribute-generator.ts`, lines 54–156. -/
inductive TransformerOutcome
  | ret (s : List Char)
  | nonString
  | err

/-- `AttributeTransformers` of `src/types.ts`. -/
structure AttributeTransformers where
  id : Option (List Char → TransformerOutcome) := Option.none
  name : Option (List Char → TransformerOutcome) := Option.none
  path : Option (List Char → TransformerOutcome) := Option.none
  line : Option (Nat → TransformerOutcome) := Option.none
  file : Option (List Char → TransformerOutcome) := Option.none
  component : Option (List Char → TransformerOutcome) := Option.none

/-- The per-attribute transformer call sites of `generateAttributes`:
`try { t := f x; if not string keep original else use t } catch keep
original`. -/
def applyTransformer {α : Type} (t : Option (α → TransformerOutcome)) (x : α)
    (orig : List Char) : List Char :=
  match t with
  | Option.none => orig
  | some f =>
    match f x with
    | .ret s => s
    | .nonString => orig
    | .err => orig

/-- Result of calling the user `customAttributes` callback: an entry list
(`Object.entries` order) or a thrown exception. -/
inductive CustomAttrOutcome
  | ok (entries : List (List Char × List Char))
  | err

/-- The `shouldInclude` closure of `generateAttributes`
(`attribute-generator.ts`, lines 41–49). -/
def shouldInclude (includeAttributes excludeAttributes : Option (List AttributeName))
    (a : AttributeName) : Bool :=
  match includeAttributes with
  | some allow => allow.contains a
  | Option.none =>
    match excludeAttributes with
    | some deny => if deny.length > 0 then !(deny.contains a) else true
    | Option.none => true

def MAX_METADATA_SIZE : Nat := 10240

/-- The metadata object: captured props copied in, then the flattened
text content under key `text` when present and non-empty
(`attribute-generator.ts`, lines 161–167). -/
def metadataObject (info : InternalComponentInfo) : List (List Char × PropValue) :=
  let base := match info.props with
    | some ps => ps
    | Option.none => []
  match info.content with
  | some t => if t ≠ [] then objSet base "text".data (.str t) else base
  | Option.none => base

/-- The size-capping of the serialized metadata
(`attribute-generator.ts`, lines 171–186): serialize once; over 10 KiB,
re-serialize with the spread `{ ...metadata, _truncated: true }`; if still
over the cap, hard-substring to `MAX - 20` characters and append the
sentinel `...[truncated]"}` . -/
def truncatedMetadataJson (entries : List (List Char × PropValue)) : List Char :=
  let metadataJson := jsonStringifyObj entries
  if metadataJson.length > MAX_METADATA_SIZE then
    let withFlag := jsonStringifyObj (objSet entries "_truncated".data .boolTrue)
    if withFlag.length > MAX_METADATA_SIZE then
      withFlag.take (MAX_METADATA_SIZE - 20) ++ "...[truncated]\"\x7d".data
    else withFlag
  else metadataJson

/-- Metadata encoding per configured mode
(`attribute-generator.ts`, lines 188–197). -/
def encodeMetadataValue (enc : MetadataEncoding) (mJson : List Char) : List Char :=
  match enc with
  | .base64 => encodeBase64 mJson
  | .none => replaceAllChar '"' "&quot;".data mJson
  | .json => encodeURIComponent mJson

def natChars (n : Nat) : List Char :=
  (Nat.repr n).data

/-- The untransformed unique id: `path:line:column`. -/
def idBaseValue (info : InternalComponentInfo) : List Char :=
  info.path ++ (':' :: natChars info.line) ++ (':' :: natChars info.column)

/-- Sequential conditional object assignments, as a fold over
(condition, key, value) steps in source order starting from `{}`. -/
def buildSteps (steps : List (Bool × List Char × List Char)) :
    List (List Char × List Char) :=
  steps.foldl (fun m s => if s.1 then objSet m s.2.1 s.2.2 else m) []

/-- The built-in attribute assignments of `generateAttributes`
(`attribute-generator.ts`, lines 51–206) in source order: id, name, path,
line, file, component, metadata (only when the metadata object is
non-empty), sourcemap hint (only when enabled and `path` is included). -/
def builtinSteps (info : InternalComponentInfo) (trans : AttributeTransformers)
    (includeAttributes excludeAttributes : Option (List AttributeName))
    (enc : MetadataEncoding) (includeSourceMapHints : Bool) :
    List (Bool × List Char × List Char) :=
  let inc := shouldInclude includeAttributes excludeAttributes
  [(inc .id, "id".data, applyTransformer trans.id (idBaseValue info) (idBaseValue info)),
   (inc .name, "name".data, applyTransformer trans.name info.name info.name),
   (inc .path, "path".data, applyTransformer trans.path info.path info.path),
   (inc .line, "line".data, applyTransformer trans.line info.line (natChars info.line)),
   (inc .file, "file".data, applyTransformer trans.file info.file info.file),
   (inc .component, "component".data, applyTransformer trans.component info.name info.name),
   (inc .metadata && !(metadataObject info).isEmpty, "metadata".data,
     encodeMetadataValue enc (truncatedMetadataJson (metadataObject info))),
   (includeSourceMapHints && inc .path, "sourcemap".data, "webpack://".data ++ info.path)]

/-- The prototype-pollution key denylist. -/
def dangerousKeys : List (List Char) :=
  ["__proto__".data, "constructor".data, "prototype".data]

def MAX_CUSTOM_ATTRS : Nat := 50

def MAX_ATTR_LENGTH : Nat := 1000

/-- Custom-attribute value truncation: over 1000 characters, substring
and append an ellipsis. -/
def truncateAttrValue (v : List Char) : List Char :=
  if v.length > MAX_ATTR_LENGTH then v.take MAX_ATTR_LENGTH ++ "...".data else v

/-- Custom-key prefix stripping (`attribute-generator.ts`, lines
254–256): strip the configured prefix only when it is followed by a dash;
`key.startsWith(prefixWithDash) ? key.slice(prefixWithDash.length) :
key`. -/
def cleanCustomKey (attrPrefix k : List Char) : List Char :=
  let prefixWithDash := attrPrefix ++ ['-']
  if prefixWithDash.isPrefixOf k then k.drop prefixWithDash.length else k

/-- The custom-attribute merge loop (`attribute-generator.ts`, lines
232–259): skip dangerous keys without counting, stop at 50 accepted
entries, truncate long values, strip the prefix-and-dash, assign into the
shared attribute-value map. -/
def mergeCustomEntries (attrPrefix : List Char)
    (m : List (List Char × List Char))
    (entries : List (List Char × List Char)) (attrCount : Nat) :
    List (List Char × List Char) :=
  match entries with
  | [] => m
  | (k, v) :: rest =>
    if dangerousKeys.contains k then mergeCustomEntries attrPrefix m rest attrCount
    else if MAX_CUSTOM_ATTRS ≤ attrCount then m
    else mergeCustomEntries attrPrefix
      (objSet m (cleanCustomKey attrPrefix k) (truncateAttrValue v)) rest
      (attrCount + 1)

/-- The attribute-value map built by `generateAttributes` before
formatting: built-in attributes in source order, then the custom entries
merged into the same map (zero custom entries when the callback throws) —
`attribute-generator.ts`, lines 51–264. -/
def computeAttributeValues (info : InternalComponentInfo) (attrPrefix : List Char)
    (includeAttributes excludeAttributes : Option (List AttributeName))
    (trans : AttributeTransformers)
    (customAttributes : Option (ComponentInfoView → CustomAttrOutcome))
    (enc : MetadataEncoding) (includeSourceMapHints : Bool) :
    List (List Char × List Char) :=
  let base := buildSteps
    (builtinSteps info trans includeAttributes excludeAttributes enc includeSourceMapHints)
  match customAttributes with
  | Option.none => base
  | some f =>
    match f (mkView info) with
    | .err => base
    | .ok entries => mergeCustomEntries attrPrefix base entries 0

/-- `JSON.stringify` of the attribute-value map (grouped mode). -/
def stringifyStrObj (m : List (List Char × List Char)) : List Char :=
  jsonStringifyObj (m.map (fun kv => (kv.1, PropValue.str kv.2)))

/-- The formatting tail of `generateAttributes`
(`attribute-generator.ts`, lines 277–293): grouped mode emits one
` prefix="escaped(encoded JSON)"` attribute; the default mode emits one
` prefix-key="escaped(value)"` token per entry, space-joined, with every
value passed through `escapeHtml` immediately before emission. -/
def formatAttributes (attrPrefix : List Char) (m : List (List Char × List Char))
    (enc : MetadataEncoding) (groupAttributes : Bool) : List Char :=
  if groupAttributes then
    let grouped := stringifyStrObj m
    let encoded := match enc with
      | .base64 => encodeBase64 grouped
      | _ => encodeURIComponent grouped
    ' ' :: (attrPrefix ++ ('=' :: '"' :: (escapeHtml encoded ++ ['"'])))
  else
    let attrs := m.map (fun kv =>
      attrPrefix ++ ('-' :: kv.1) ++ ('=' :: '"' :: (escapeHtml kv.2 ++ ['"'])))
    if attrs.length > 0 then ' ' :: joinSep " ".data attrs else []

/-- `generateAttributes` of `src/helpers/attribute-generator.ts`: the
full attribute string for one element. -/
def generateAttributes (info : InternalComponentInfo) (attrPrefix : List Char)
    (includeAttributes excludeAttributes : Option (List AttributeName))
    (trans : AttributeTransformers)
    (customAttributes : Option (ComponentInfoView → CustomAttrOutcome))
    (enc : MetadataEncoding) (includeSourceMapHints groupAttributes : Bool) :
    List Char :=
  formatAttributes attrPrefix
    (computeAttributeValues info attrPrefix includeAttributes excludeAttributes
      trans customAttributes enc includeSourceMapHints)
    enc groupAttributes

/-- Result of calling the user `shouldTag` predicate: a thrown exception
or a (truthy) return value. -/
inductive PredOutcome
  | err
  | ret (truthy : Bool)

/-- The `shouldTag` call site of `tagElements`
(`src/helpers/ast-walker.ts`, lines 307–328; identical inline in
`src/plugin.ts`): `try { if (!shouldTag(info)) skip } catch { log error;
continue }`.  Returns (proceed with tagging, error logged). -/
def shouldTagGate (pred : Option (ComponentInfoView → PredOutcome))
    (ci : ComponentInfoView) : Bool × Bool :=
  match pred with
  | Option.none => (true, false)
  | some f =>
    match f ci with
    | .err => (true, true)
    | .ret b => (b, false)

/-- Outcome of the depth-bound validation (`src/plugin.ts`, lines
390–403): final bounds plus which of the three warnings were printed. -/
structure DepthBoundsResult where
  minDepth : Int
  maxDepth : Int
  warnedMaxRange : Bool
  warnedMinNegative : Bool
  warnedSwap : Bool
deriving DecidableEq

def MAX_DEPTH_LIMIT : Int := 50

/-- The depth-bound validation of `componentDebugger` (`src/plugin.ts`,
lines 390–403), in source order: `maxDepth` is checked first
(`if (maxDepth && (maxDepth < 0 || maxDepth > 50))` → reset to 0 with a
warning), then negative `minDepth` is reset to 0 with a warning, then
inverted non-zero bounds are swapped with a warning.  JavaScript numeric
truthiness is non-zero-ness. -/
def validateDepthBounds (minDepth0 maxDepth0 : Int) : DepthBoundsResult :=
  let maxPair : Int × Bool :=
    if maxDepth0 ≠ 0 ∧ (maxDepth0 < 0 ∨ maxDepth0 > MAX_DEPTH_LIMIT) then (0, true)
    else (maxDepth0, false)
  let minPair : Int × Bool :=
    if minDepth0 ≠ 0 ∧ minDepth0 < 0 then (0, true) else (minDepth0, false)
  if minPair.1 ≠ 0 ∧ maxPair.1 ≠ 0 ∧ minPair.1 > maxPair.1 then
    ⟨maxPair.1, minPair.1, maxPair.2, minPair.2, true⟩
  else
    ⟨minPair.1, maxPair.1, maxPair.2, minPair.2, false⟩

/-- The claim's reading of the same validation: a negative `minDepth` is
reset to 0 with a warning; a `maxDepth` outside `[0, 50]` is reset to 0
with a warning; then, when both resulting values are non-zero with
`minDepth > maxDepth`, the two are swapped with a warning. -/
def depthBoundsClaimSpec (minDepth0 maxDepth0 : Int) : DepthBoundsResult :=
  let minPair : Int × Bool :=
    if minDepth0 < 0 then (0, true) else (minDepth0, false)
  let maxPair : Int × Bool :=
    if maxDepth0 < 0 ∨ maxDepth0 > 50 then (0, true) else (maxDepth0, false)
  if minPair.1 ≠ 0 ∧ maxPair.1 ≠ 0 ∧ minPair.1 > maxPair.1 then
    ⟨maxPair.1, minPair.1, maxPair.2, minPair.2, true⟩
  else
    ⟨minPair.1, maxPair.1, maxPair.2, minPair.2, false⟩

/-- `CompletionStats` of `src/types.ts`: the run statistics shared across
all files of a build. -/
structure RunStats where
  totalFiles : Nat
  processedFiles : Nat
  totalElements : Nat
  errors : Nat
  byElementType : List (List Char × Nat)

def countOf (s : RunStats) (name : List Char) : Nat :=
  (lookupVal s.byElementType name).getD 0

/-- `stats.byElementType[name] = (stats.byElementType[name] || 0) + 1`. -/
def bumpElementCount (m : List (List Char × Nat)) (name : List Char) :
    List (List Char × Nat) :=
  objSet m name ((lookupVal m name).getD 0 + 1)

/-- The per-element count commits performed during the walk, one per
tagged element in order. -/
def applyTagCounts (m : List (List Char × Nat)) (names : List (List Char)) :
    List (List Char × Nat) :=
  names.foldl bumpElementCount m

/-- How one `transform` call can unfold, as observed by the run
statistics (`src/plugin.ts`, transform hook):
* `skippedIneligible` — disabled, wrong extension or vendored path:
  nothing counted;
* `skippedByPathFilter` — past the extension check (so `totalFiles++`)
  but rejected by the include/exclude path filter;
* `parseFailed` — the parse threw: caught, `errors++`;
* `walkThrew tagged` — the walk threw after tagging `tagged` (their
  `byElementType` counts were already committed element by element):
  caught, `errors++`;
* `completed tagged` — the walk finished: `processedFiles++`,
  `totalElements += count`;
* `completedThenCallbackThrew tagged` — the walk finished and committed,
  then the `onTransform` callback threw inside the same `try`: caught,
  `errors++`. -/
inductive FileEvent
  | skippedIneligible
  | skippedByPathFilter
  | parseFailed
  | walkThrew (tagged : List (List Char))
  | completed (tagged : List (List Char))
  | completedThenCallbackThrew (tagged : List (List Char))

/-- The statistics mutations of one `transform` call (`src/plugin.ts`,
lines 417–421, 660–677 and 696–700). -/
def applyTransformEvent (s : RunStats) (e : FileEvent) : RunStats :=
  match e with
  | .skippedIneligible => s
  | .skippedByPathFilter => { s with totalFiles := s.totalFiles + 1 }
  | .parseFailed =>
    { s with totalFiles := s.totalFiles + 1, errors := s.errors + 1 }
  | .walkThrew tagged =>
    { s with totalFiles := s.totalFiles + 1,
             byElementType := applyTagCounts s.byElementType tagged,
             errors := s.errors + 1 }
  | .completed tagged =>
    { s with totalFiles := s.totalFiles + 1,
             byElementType := applyTagCounts s.byElementType tagged,
             processedFiles := s.processedFiles + 1,
             totalElements := s.totalElements + tagged.length }
  | .completedThenCallbackThrew tagged =>
    { s with totalFiles := s.totalFiles + 1,
             byElementType := applyTagCounts s.byElementType tagged,
             processedFiles := s.processedFiles + 1,
             totalElements := s.totalElements + tagged.length,
             errors := s.errors + 1 }

/-- Did this transform call hit the catch block? -/
def eventThrew : FileEvent → Bool
  | .parseFailed => true
  | .walkThrew _ => true
  | .completedThenCallbackThrew _ => true
  | _ => false

/-- Did the walk complete (committing `processedFiles`)? -/
def eventWalkCompleted : FileEvent → Bool
  | .completed _ => true
  | .completedThenCallbackThrew _ => true
  | _ => false

/-- Did the file pass the extension check (committing `totalFiles`)? -/
def eventSeen : FileEvent → Bool
  | .skippedIneligible => false
  | _ => true

/-- Component-wise order on run statistics. -/
def statsLe (s t : RunStats) : Prop :=
  s.totalFiles ≤ t.totalFiles ∧ s.processedFiles ≤ t.processedFiles ∧
    s.totalElements ≤ t.totalElements ∧ s.errors ≤ t.errors ∧
    ∀ n, countOf s n ≤ countOf t n

def MAX_PATTERN_LENGTH : Nat := 200

def MAX_WILDCARD_COUNT : Nat := 10

def wildcardCount (p : List Char) : Nat :=
  p.countP (fun c => c = '*')

/-- The anti-ReDoS pattern bounds shared by `matchesPatterns`
(`src/plugin.ts` and `src/helpers/path-matching.ts`): length at most 200
and at most 10 `*` wildcards; oversized patterns are skipped with a
warning. -/
def validPatternBounds (p : List Char) : Bool :=
  !(decide (p.length > MAX_PATTERN_LENGTH)) &&
    !(decide (wildcardCount p > MAX_WILDCARD_COUNT))

/-- `matchesPatterns(filePath, patterns)` (`src/plugin.ts`, lines
334–340, and the legacy helper of `src/helpers/path-matching.ts`):
`false` when the pattern list is absent or empty, otherwise `true` iff
some pattern within the bounds matches.  The glob matcher itself
(`minimatch`) is the abstract parameter `mm`. -/
def matchesPatterns (mm : List Char → List Char → Bool) (filePath : List Char)
    (patterns : Option (List (List Char))) : Bool :=
  match patterns with
  | Option.none => false
  | some ps =>
    if ps.length = 0 then false
    else ps.any (fun p => validPatternBounds p && mm filePath p)

/-- The path-filter gate of the transform hook (`src/plugin.ts`, lines
423–430): `if (includePaths && !matchesPatterns(...)) return null;
if (excludePaths && matchesPatterns(...)) return null` — note that a
present-but-empty `includePaths` array is truthy in JavaScript. -/
def shouldProcessPath (mm : List Char → List Char → Bool)
    (includePaths excludePaths : Option (List (List Char)))
    (filePath : List Char) : Bool :=
  if includePaths.isSome && !(matchesPatterns mm filePath includePaths) then false
  else if excludePaths.isSome && matchesPatterns mm filePath excludePaths then false
  else true

/-- The claim's qualification predicate, written from its words: a file
qualifies iff (no include patterns are configured — which per the claim
includes a configured-but-empty list — or the path matches at least one
include pattern) and (no exclude patterns are configured or it matches
none of them). -/
def claimPathQualifies (mm : List Char → List Char → Bool)
    (includePaths excludePaths : Option (List (List Char)))
    (filePath : List Char) : Bool :=
  (match includePaths with
   | Option.none => true
   | some [] => true
   | some ps => ps.any (fun p => mm filePath p)) &&
  (match excludePaths with
   | Option.none => true
   | some ps => ps.all (fun p => !(mm filePath p)))

/-- A concrete glob matcher for witnesses and counterexamples. -/
def alwaysMatch : List Char → List Char → Bool := fun _ _ => true

theorem lastIndexFrom_some (hay pat : List Char) (i k : Nat)
    (h : lastIndexFrom hay pat i = some k) :
    pat.isPrefixOf (hay.drop k) = true ∧ k ≤ i ∧
      ∀ j, k < j → j ≤ i → pat.isPrefixOf (hay.drop j) = false := by
  induction i with
  | zero =>
    by_cases hp : pat.isPrefixOf hay = true
    · simp [lastIndexFrom, hp] at h
      subst h
      exact ⟨by simpa using hp, Nat.le_refl 0, fun j hj hj2 => by omega⟩
    · simp [lastIndexFrom, Bool.eq_false_iff.mpr hp] at h
  | succ i ih =>
    by_cases hp : pat.isPrefixOf (hay.drop (i + 1)) = true
    · simp [lastIndexFrom, hp] at h
      subst h
      exact ⟨hp, Nat.le_refl _, fun j hj hj2 => by omega⟩
    · have hp' : pat.isPrefixOf (hay.drop (i + 1)) = false :=
        Bool.eq_false_iff.mpr hp
      simp [lastIndexFrom, hp'] at h
      obtain ⟨h1, h2, h3⟩ := ih h
      refine ⟨h1, Nat.le_succ_of_le h2, fun j hj hj2 => ?_⟩
      rcases Nat.lt_or_ge j (i + 1) with hlt | hge
      · exact h3 j hj (Nat.lt_succ_iff.mp hlt)
      · have : j = i + 1 := Nat.le_antisymm hj2 hge
        subst this
        exact hp'

theorem lastIndexFrom_none (hay pat : List Char) (i : Nat)
    (h : lastIndexFrom hay pat i = none) :
    ∀ j, j ≤ i → pat.isPrefixOf (hay.drop j) = false := by
  induction i with
  | zero =>
    intro j hj
    interval_cases j
    by_cases hp : pat.isPrefixOf hay = true
    · simp [lastIndexFrom, hp] at h
    · simpa using Bool.eq_false_iff.mpr hp
  | succ i ih =>
    intro j hj
    by_cases hp : pat.isPrefixOf (hay.drop (i + 1)) = true
    · simp [lastIndexFrom, hp] at h
    · have hp' : pat.isPrefixOf (hay.drop (i + 1)) = false :=
        Bool.eq_false_iff.mpr hp
      simp [lastIndexFrom, hp'] at h
      rcases Nat.lt_or_ge j (i + 1) with hlt | hge
      · exact ih h j (Nat.lt_succ_iff.mp hlt)
      · have : j = i + 1 := Nat.le_antisymm hj hge
        subst this
        exact hp'

theorem isPrefixOf_drop_of_long (hay pat : List Char) (j : Nat)
    (hne : pat ≠ []) (hj : hay.length < j) :
    pat.isPrefixOf (hay.drop j) = false := by
  have hdrop : hay.drop j = [] := List.drop_eq_nil_of_le (Nat.le_of_lt hj)
  rw [hdrop]
  cases pat with
  | nil => exact absurd rfl hne
  | cons a l => rfl

/-- Claim C1 (amended): for every visited opening element the insertion
offset is the node start plus the index of the last occurrence of the
closing delimiter (`'/>'` when self-closing, `'>'` otherwise) in the
element's raw source substring; when the delimiter does not occur at all,
the offset falls back to the node end minus the delimiter length (2 or 1),
no exception is thrown, and the defensive warning is printed exactly when
debug logging is enabled. -/
theorem computeInsertPosition_spec (code : List Char) (s e : Nat) (sc debug : Bool) :
    (∀ i, lastIndexOfSeq (substringOf code s e) (tagDelim sc) = some i →
        computeInsertPosition code s e sc debug = (s + i, false) ∧
        (tagDelim sc).isPrefixOf ((substringOf code s e).drop i) = true ∧
        ∀ j, i < j → (tagDelim sc).isPrefixOf ((substringOf code s e).drop j) = false) ∧
    (lastIndexOfSeq (substringOf code s e) (tagDelim sc) = none →
        (∀ j, (tagDelim sc).isPrefixOf ((substringOf code s e).drop j) = false) ∧
        computeInsertPosition code s e sc debug = (e - (tagDelim sc).length, debug)) := by
  have hne : tagDelim sc ≠ [] := by cases sc <;> simp [tagDelim]
  constructor
  · intro i hi
    have h := lastIndexFrom_some (substringOf code s e) (tagDelim sc)
      (substringOf code s e).length i hi
    refine ⟨?_, h.1, fun j hj => ?_⟩
    · cases sc <;> simp [computeInsertPosition, tagDelim] at hi ⊢ <;> simp [hi]
    · rcases le_or_lt j (substringOf code s e).length with hle | hgt
      · exact h.2.2 j hj hle
      · exact isPrefixOf_drop_of_long _ _ j hne hgt
  · intro hn
    constructor
    · intro j
      rcases le_or_lt j (substringOf code s e).length with hle | hgt
      · exact lastIndexFrom_none (substringOf code s e) (tagDelim sc)
          (substringOf code s e).length hn j hle
      · exact isPrefixOf_drop_of_long _ _ j hne hgt
    · cases sc <;> simp [computeInsertPosition, tagDelim] at hn ⊢ <;> simp [hn]

/-- Claim C1 (counterexample): the claim asserts that a warning is logged
whenever the sought delimiter is missing, but the source guards that
`console.warn` behind `if (debug)`; with `debug = false` the fallback is
taken silently. -/
theorem computeInsertPosition_warning_cex :
    ¬ (∀ (code : List Char) (s e : Nat) (sc debug : Bool),
        lastIndexOfSeq (substringOf code s e) (tagDelim sc) = none →
        (computeInsertPosition code s e sc debug).2 = true) := by
  intro h
  exact absurd (h ['a', 'b'] 0 2 false false (by decide)) (by decide)

/-- Witness for `computeInsertPosition_spec`: on the concrete self-closing
element `<div />` the located insertion offset is 5, immediately before
the final `'/>'`. -/
theorem computeInsertPosition_spec_witness :
    computeInsertPosition "<div />".data 0 7 true false = (5, false) := by
  have h := (computeInsertPosition_spec "<div />".data 0 7 true false).1 5 (by decide)
  simpa using h.1

/-- Claim C4 (confirmed): with a configured `shouldTag` predicate, a
throwing call is logged and the element is still tagged (fail-open), a
falsy return skips the element, and a truthy return lets tagging proceed
normally. -/
theorem shouldTag_failopen (f : ComponentInfoView → PredOutcome) (ci : ComponentInfoView) :
    (f ci = .err → shouldTagGate (some f) ci = (true, true)) ∧
    (f ci = .ret false → shouldTagGate (some f) ci = (false, false)) ∧
    (f ci = .ret true → shouldTagGate (some f) ci = (true, false)) := by
  refine ⟨fun h => ?_, fun h => ?_, fun h => ?_⟩ <;> simp [shouldTagGate, h]

/-- Witness for `shouldTag_failopen`: a predicate that always throws
still lets the concrete element be tagged, with the error logged. -/
theorem shouldTag_failopen_witness :
    shouldTagGate (some (fun _ => PredOutcome.err))
      ⟨"div".data, "a.tsx".data, 3, 2, Option.none, Option.none⟩ = (true, true) :=
  (shouldTag_failopen (fun _ => PredOutcome.err)
    ⟨"div".data, "a.tsx".data, 3, 2, Option.none, Option.none⟩).1 rfl

/-- Claim C7 (confirmed): the post-merge depth validation never raises an
error (it is a total function) and implements exactly the claim's three
rules — negative `minDepth` reset to 0 with a warning, `maxDepth` outside
`[0, 50]` reset to 0 with a warning, and both-non-zero inverted bounds
swapped with a warning. -/
theorem validateDepthBounds_spec (minD maxD : Int) :
    validateDepthBounds minD maxD = depthBoundsClaimSpec minD maxD := by
  unfold validateDepthBounds depthBoundsClaimSpec MAX_DEPTH_LIMIT
  dsimp only
  split_ifs <;> first | rfl | (exfalso; omega)

theorem lookupVal_objSet_self {α : Type} (m : List (List Char × α)) (k : List Char) (v : α) :
    lookupVal (objSet m k v) k = some v := by
  induction m with
  | nil => simp [objSet, lookupVal]
  | cons kv rest ih =>
    obtain ⟨k', v'⟩ := kv
    by_cases h : k' = k
    · subst h
      simp [objSet, lookupVal]
    · simp [objSet, lookupVal, h, ih]

theorem lookupVal_objSet_other {α : Type} (m : List (List Char × α)) (k k' : List Char)
    (v : α) (h : k' ≠ k) :
    lookupVal (objSet m k v) k' = lookupVal m k' := by
  induction m with
  | nil => simp [objSet, lookupVal, Ne.symm h]
  | cons kv rest ih =>
    obtain ⟨k'', v''⟩ := kv
    by_cases h2 : k'' = k
    · subst h2
      simp [objSet, lookupVal, Ne.symm h]
    · simp [objSet, lookupVal, h2, ih]

theorem countOf_bump_ge (m : List (List Char × Nat)) (name n : List Char) :
    (lookupVal m n).getD 0 ≤ (lookupVal (bumpElementCount m name) n).getD 0 := by
  by_cases h : n = name
  · subst h
    rw [bumpElementCount, lookupVal_objSet_self]
    simp
  · rw [bumpElementCount, lookupVal_objSet_other m name n _ h]

theorem countOf_applyTagCounts_ge (names : List (List Char)) :
    ∀ (m : List (List Char × Nat)) (n : List Char),
      (lookupVal m n).getD 0 ≤ (lookupVal (applyTagCounts m names) n).getD 0 := by
  induction names with
  | nil => intro m n; simp [applyTagCounts]
  | cons name rest ih =>
    intro m n
    have h1 := countOf_bump_ge m name n
    have h2 := ih (bumpElementCount m name) n
    simpa [applyTagCounts] using Nat.le_trans h1 h2

theorem statsLe_refl (s : RunStats) : statsLe s s :=
  ⟨Nat.le_refl _, Nat.le_refl _, Nat.le_refl _, Nat.le_refl _, fun _ => Nat.le_refl _⟩

theorem statsLe_trans {s t u : RunStats} (h1 : statsLe s t) (h2 : statsLe t u) :
    statsLe s u :=
  ⟨Nat.le_trans h1.1 h2.1, Nat.le_trans h1.2.1 h2.2.1,
    Nat.le_trans h1.2.2.1 h2.2.2.1, Nat.le_trans h1.2.2.2.1 h2.2.2.2.1,
    fun n => Nat.le_trans (h1.2.2.2.2 n) (h2.2.2.2.2 n)⟩

theorem statsLe_applyTransformEvent (s : RunStats) (e : FileEvent) :
    statsLe s (applyTransformEvent s e) := by
  cases e <;>
    refine ⟨?_, ?_, ?_, ?_, fun n => ?_⟩ <;>
      simp [applyTransformEvent, countOf] <;>
        first
        | omega
        | exact countOf_applyTagCounts_ge _ s.byElementType n

/-- Claim C9 (amended): every statistics counter is monotonically
non-decreasing, per transform call and across any run; the error counter
is incremented exactly by throwing calls; `processedFiles` and
`totalElements` are committed only after the walk completes; but
`totalFiles` is committed as soon as a file passes the extension check
(even if processing later throws or the path filter rejects it), and the
per-element `byElementType` counts are committed during the walk, element
by element, so a file whose walk throws mid-way keeps the counts of the
elements tagged before the throw. -/
theorem runStats_commit_spec :
    (∀ (s : RunStats) (e : FileEvent), statsLe s (applyTransformEvent s e)) ∧
    (∀ (s : RunStats) (es : List FileEvent),
      statsLe s (es.foldl applyTransformEvent s)) ∧
    (∀ (s : RunStats) (e : FileEvent),
      (applyTransformEvent s e).errors
        = s.errors + (if eventThrew e then 1 else 0)) ∧
    (∀ (s : RunStats) (e : FileEvent),
      (applyTransformEvent s e).processedFiles
        = s.processedFiles + (if eventWalkCompleted e then 1 else 0)) ∧
    (∀ (s : RunStats) (e : FileEvent),
      (applyTransformEvent s e).totalFiles
        = s.totalFiles + (if eventSeen e then 1 else 0)) := by
  refine ⟨statsLe_applyTransformEvent, ?_, ?_, ?_, ?_⟩
  · intro s es
    induction es generalizing s with
    | nil => exact statsLe_refl s
    | cons e rest ih =>
      exact statsLe_trans (statsLe_applyTransformEvent s e)
        (by simpa using ih (applyTransformEvent s e))
  · intro s e
    cases e <;> simp [applyTransformEvent, eventThrew]
  · intro s e
    cases e <;> simp [applyTransformEvent, eventWalkCompleted]
  · intro s e
    cases e <;> simp [applyTransformEvent, eventSeen]

/-- Claim C9 (counterexample): a file whose walk throws does not
contribute "only to the error count": processing a single file that
throws mid-walk after tagging one `div` leaves `totalFiles = 1` and
`byElementType["div"] = 1` alongside `errors = 1`, starting from
all-zero statistics. -/
theorem runStats_throwing_file_cex :
    (applyTransformEvent ⟨0, 0, 0, 0, []⟩ (.walkThrew ["div".data])).totalFiles = 1 ∧
    countOf (applyTransformEvent ⟨0, 0, 0, 0, []⟩ (.walkThrew ["div".data])) "div".data = 1 ∧
    (applyTransformEvent ⟨0, 0, 0, 0, []⟩ (.walkThrew ["div".data])).errors = 1 ∧
    countOf ⟨0, 0, 0, 0, []⟩ "div".data = 0 := by
  refine ⟨rfl, ?_, rfl, rfl⟩
  decide

theorem matchesPatterns_some_iff (mm : List Char → List Char → Bool)
    (fp : List Char) (ps : List (List Char)) :
    matchesPatterns mm fp (some ps) = true ↔
      ∃ p, p ∈ ps ∧ validPatternBounds p = true ∧ mm fp p = true := by
  cases ps with
  | nil => simp [matchesPatterns]
  | cons q qs => simp [matchesPatterns, List.any_eq_true, Bool.and_eq_true]

theorem matchesPatterns_some_false_iff (mm : List Char → List Char → Bool)
    (fp : List Char) (ps : List (List Char)) :
    matchesPatterns mm fp (some ps) = false ↔
      ∀ p, p ∈ ps → validPatternBounds p = true → mm fp p = false := by
  rw [← Bool.not_eq_true, matchesPatterns_some_iff]
  constructor
  · intro h p hp hv
    cases hb : mm fp p
    · rfl
    · exact absurd ⟨p, hp, hv, hb⟩ h
  · rintro h ⟨p, hp, hv, hb⟩
    rw [h p hp hv] at hb
    exact absurd hb (by simp)

theorem shouldProcessPath_eq_formula (mm : List Char → List Char → Bool)
    (inc exc : Option (List (List Char))) (fp : List Char) :
    shouldProcessPath mm inc exc fp
      = ((!inc.isSome || matchesPatterns mm fp inc) &&
         (!exc.isSome || !(matchesPatterns mm fp exc))) := by
  unfold shouldProcessPath
  cases hi : inc.isSome <;> cases hm : matchesPatterns mm fp inc <;>
    cases he : exc.isSome <;> cases hm2 : matchesPatterns mm fp exc <;>
      simp [hi, hm, he, hm2]

/-- Claim C5 (amended): a file qualifies for processing iff (no include
option is configured, or the path matches at least one include pattern
within the anti-ReDoS bounds) and (no exclude option is configured, or it
matches none of the in-bounds exclude patterns); but a configured EMPTY
include list rejects every file (an empty pattern list matches nothing
and the include gate fires whenever the option is present), unlike
configuring no include patterns at all. -/
theorem pathFilter_spec (mm : List Char → List Char → Bool)
    (inc exc : Option (List (List Char))) (fp : List Char) :
    (shouldProcessPath mm inc exc fp = true ↔
      ((inc = Option.none ∨ ∃ ps, inc = some ps ∧
          ∃ p, p ∈ ps ∧ validPatternBounds p = true ∧ mm fp p = true) ∧
       (exc = Option.none ∨ ∀ ps, exc = some ps →
          ∀ p, p ∈ ps → validPatternBounds p = true → mm fp p = false))) ∧
    shouldProcessPath mm (some []) exc fp = false := by
  constructor
  · have h1 : (!inc.isSome || matchesPatterns mm fp inc) = true ↔
        (inc = Option.none ∨ ∃ ps, inc = some ps ∧
          ∃ p, p ∈ ps ∧ validPatternBounds p = true ∧ mm fp p = true) := by
      cases inc with
      | none => simp
      | some ps => simp [matchesPatterns_some_iff]
    have h2 : (!exc.isSome || !(matchesPatterns mm fp exc)) = true ↔
        (exc = Option.none ∨ ∀ ps, exc = some ps →
          ∀ p, p ∈ ps → validPatternBounds p = true → mm fp p = false) := by
      cases exc with
      | none => simp
      | some qs => simp [← matchesPatterns_some_false_iff]
    rw [shouldProcessPath_eq_formula, Bool.and_eq_true, h1, h2]
  · simp [shouldProcessPath, matchesPatterns]

/-- Claim C5 (counterexample): the claim asserts that an empty include
list leaves every file qualifying, identical to no include patterns at
all; but against the source gate a configured `includePaths: []` rejects
`src/App.tsx` even with a glob matcher that matches everything, while the
claim's own predicate accepts it. -/
theorem pathFilter_empty_include_cex :
    shouldProcessPath alwaysMatch (some []) Option.none "src/App.tsx".data = false ∧
    claimPathQualifies alwaysMatch (some []) Option.none "src/App.tsx".data = true := by
  exact ⟨rfl, rfl⟩

theorem lookupVal_append_single {α : Type} (m : List (List Char × α))
    (k : List Char) (v : α) (k' : List Char) (h : k' ≠ k) :
    lookupVal (m ++ [(k, v)]) k' = lookupVal m k' := by
  induction m with
  | nil => simp [lookupVal, Ne.symm h]
  | cons kv rest ih =>
    obtain ⟨k'', v''⟩ := kv
    by_cases h2 : k'' = k'
    · simp [lookupVal, h2]
    · simp [lookupVal, h2, ih]

theorem objSet_eq_append {α : Type} (m : List (List Char × α)) (k : List Char)
    (v : α) (h : lookupVal m k = none) : objSet m k v = m ++ [(k, v)] := by
  induction m with
  | nil => simp [objSet]
  | cons kv rest ih =>
    obtain ⟨k', v'⟩ := kv
    by_cases h2 : k' = k
    · subst h2
      simp [lookupVal] at h
    · rw [lookupVal, if_neg h2] at h
      simp [objSet, h2, ih h]

theorem buildSteps_from (steps : List (Bool × List Char × List Char)) :
    ∀ (m : List (List Char × List Char)),
      (∀ s, s ∈ steps → lookupVal m s.2.1 = none) →
      (steps.map (fun s => s.2.1)).Nodup →
      steps.foldl (fun m s => if s.1 then objSet m s.2.1 s.2.2 else m) m
        = m ++ steps.filterMap (fun s => if s.1 then some (s.2.1, s.2.2) else none) := by
  induction steps with
  | nil => intro m _ _; simp
  | cons s rest ih =>
    intro m hnone hnodup
    obtain ⟨c, k, v⟩ := s
    rw [List.map_cons, List.nodup_cons] at hnodup
    cases c
    · have hrec := ih m (fun t ht => hnone t (List.mem_cons_of_mem _ ht)) hnodup.2
      simpa using hrec
    · have hk : lookupVal m k = none := hnone (true, k, v) (List.mem_cons_self _ _)
      have hnone2 : ∀ t, t ∈ rest → lookupVal (m ++ [(k, v)]) t.2.1 = none := by
        intro t ht
        have hne : t.2.1 ≠ k := by
          intro he
          exact hnodup.1 (by
            rw [← he]
            exact List.mem_map_of_mem (fun s => s.2.1) ht)
        rw [lookupVal_append_single m k v t.2.1 hne]
        exact hnone t (List.mem_cons_of_mem _ ht)
      have hrec := ih (m ++ [(k, v)]) hnone2 hnodup.2
      simpa [objSet_eq_append m k v hk] using hrec

theorem buildSteps_eq (steps : List (Bool × List Char × List Char))
    (h : (steps.map (fun s => s.2.1)).Nodup) :
    buildSteps steps
      = steps.filterMap (fun s => if s.1 then some (s.2.1, s.2.2) else none) := by
  have hb := buildSteps_from steps [] (fun s _ => rfl) h
  simpa [buildSteps] using hb

theorem filterMap_step_cons (c : Bool) (k v : List Char)
    (rest : List (Bool × List Char × List Char)) :
    List.filterMap (fun s => if s.1 then some (s.2.1, s.2.2) else none) ((c, k, v) :: rest)
      = (if c then [(k, v)] else []) ++
          List.filterMap (fun s => if s.1 then some (s.2.1, s.2.2) else none) rest := by
  cases c <;> simp [List.filterMap_cons]

theorem mergeCustomEntries_single (attrPrefix : List Char)
    (m : List (List Char × List Char)) (k v : List Char)
    (hd : dangerousKeys.contains k = false) :
    mergeCustomEntries attrPrefix m [(k, v)] 0
      = objSet m (cleanCustomKey attrPrefix k) (truncateAttrValue v) := by
  have hmem : ¬ k ∈ dangerousKeys := by simpa using hd
  simp [mergeCustomEntries, hmem, MAX_CUSTOM_ATTRS]

/-- Claim C8 (confirmed): a custom-attribute key that starts with the
configured prefix immediately followed by a dash has exactly that
prefix-and-dash stripped (so re-adding the prefix-and-dash at emission
reconstructs the key), a key that merely starts with the prefix text
without the dash is left untouched, and a single accepted entry is merged
under the cleaned key. -/
theorem cleanCustomKey_spec (attrPrefix k : List Char) :
    ((attrPrefix ++ ['-']).isPrefixOf k = true →
        (attrPrefix ++ ['-']) ++ cleanCustomKey attrPrefix k = k) ∧
    (attrPrefix.isPrefixOf k = true → (attrPrefix ++ ['-']).isPrefixOf k = false →
        cleanCustomKey attrPrefix k = k) ∧
    ∀ (m : List (List Char × List Char)) (v : List Char),
      dangerousKeys.contains k = false →
      mergeCustomEntries attrPrefix m [(k, v)] 0
        = objSet m (cleanCustomKey attrPrefix k) (truncateAttrValue v) := by
  refine ⟨fun h => ?_, fun _ h2 => ?_, fun m v hd => mergeCustomEntries_single _ m k v hd⟩
  · obtain ⟨t, ht⟩ := List.isPrefixOf_iff_prefix.mp h
    simp only [cleanCustomKey, if_pos h]
    rw [← ht, List.drop_left]
  · simp [cleanCustomKey, h2]

/-- Witness for `cleanCustomKey_spec`: with prefix `data-dev`, the key
`data-devCustom` (prefix text but no dash) is not stripped, while
stripping `data-dev-custom` and re-adding `data-dev-` reconstructs the
original key. -/
theorem cleanCustomKey_spec_witness :
    cleanCustomKey "data-dev".data "data-devCustom".data = "data-devCustom".data ∧
    ("data-dev".data ++ ['-']) ++ cleanCustomKey "data-dev".data "data-dev-custom".data
      = "data-dev-custom".data := by
  refine ⟨?_, ?_⟩
  · exact (cleanCustomKey_spec "data-dev".data "data-devCustom".data).2.1
      (by decide) (by decide)
  · exact (cleanCustomKey_spec "data-dev".data "data-dev-custom".data).1 (by decide)

/-- Claim C10 (confirmed): a custom-attribute key that, after prefix
stripping, equals a built-in attribute name silently overwrites that
built-in attribute's value in the shared attribute-value map, because the
custom entries are assigned into the same map after the built-in
attributes are computed. -/
theorem custom_overwrites_builtin
    (info : InternalComponentInfo) (attrPrefix : List Char)
    (includeA excludeA : Option (List AttributeName)) (trans : AttributeTransformers)
    (enc : MetadataEncoding) (hints : Bool)
    (f : ComponentInfoView → CustomAttrOutcome) (k v : List Char)
    (hf : f (mkView info) = CustomAttrOutcome.ok [(k, v)])
    (hd : dangerousKeys.contains k = false)
    (hb : cleanCustomKey attrPrefix k ∈
      ["id".data, "name".data, "path".data, "line".data, "file".data,
       "component".data, "metadata".data, "sourcemap".data])
    (hpresent : (lookupVal (computeAttributeValues info attrPrefix includeA excludeA
        trans Option.none enc hints) (cleanCustomKey attrPrefix k)).isSome = true) :
    lookupVal (computeAttributeValues info attrPrefix includeA excludeA trans
        (some f) enc hints) (cleanCustomKey attrPrefix k)
      = some (truncateAttrValue v) := by
  unfold computeAttributeValues
  simp only [hf]
  rw [mergeCustomEntries_single attrPrefix _ k v hd, lookupVal_objSet_self]

/-- Witness for `custom_overwrites_builtin`: a custom entry under key
`data-dev-name` (which strips to the built-in `name`) replaces the
element name `div` with `Injected` in the final attribute-value map. -/
theorem custom_overwrites_builtin_witness :
    lookupVal (computeAttributeValues
        ⟨"a.tsx".data, 3, 2, "a.tsx".data, "div".data, Option.none, Option.none⟩
        "data-dev".data Option.none Option.none {}
        (some (fun _ => CustomAttrOutcome.ok [("data-dev-name".data, "Injected".data)]))
        .json false) "name".data
      = some (truncateAttrValue "Injected".data) := by
  have h := custom_overwrites_builtin
    ⟨"a.tsx".data, 3, 2, "a.tsx".data, "div".data, Option.none, Option.none⟩
    "data-dev".data Option.none Option.none {} .json false
    (fun _ => CustomAttrOutcome.ok [("data-dev-name".data, "Injected".data)])
    "data-dev-name".data "Injected".data rfl (by decide) (by decide) (by decide)
  rw [show cleanCustomKey "data-dev".data "data-dev-name".data = "name".data from
    by decide] at h
  exact h

/-- Claim C6 (amended): when an allowlist is configured the denylist is
ignored entirely (the computed attribute map does not depend on it), and
the emitted attribute keys are exactly the allowlist in canonical order —
except that `metadata` is emitted only when the element's metadata object
is non-empty, and the `sourcemap` hint (emitted when enabled and `path`
is allowed) plus custom attributes sit outside the allow/deny
mechanism. -/
theorem attr_allowlist_spec :
    (∀ (info : InternalComponentInfo) (attrPrefix : List Char)
        (allow : List AttributeName) (exc1 exc2 : Option (List AttributeName))
        (trans : AttributeTransformers)
        (custom : Option (ComponentInfoView → CustomAttrOutcome))
        (enc : MetadataEncoding) (hints : Bool),
      computeAttributeValues info attrPrefix (some allow) exc1 trans custom enc hints
        = computeAttributeValues info attrPrefix (some allow) exc2 trans custom enc hints) ∧
    (∀ (info : InternalComponentInfo) (attrPrefix : List Char)
        (allow : List AttributeName) (exc : Option (List AttributeName))
        (trans : AttributeTransformers) (enc : MetadataEncoding) (hints : Bool),
      keysOf (computeAttributeValues info attrPrefix (some allow) exc trans
          Option.none enc hints)
        = (if allow.contains .id then ["id".data] else []) ++
          (if allow.contains .name then ["name".data] else []) ++
          (if allow.contains .path then ["path".data] else []) ++
          (if allow.contains .line then ["line".data] else []) ++
          (if allow.contains .file then ["file".data] else []) ++
          (if allow.contains .component then ["component".data] else []) ++
          (if allow.contains .metadata && !(metadataObject info).isEmpty
            then ["metadata".data] else []) ++
          (if hints && allow.contains .path then ["sourcemap".data] else [])) := by
  constructor
  · intro info attrPrefix allow exc1 exc2 trans custom enc hints
    have hb : builtinSteps info trans (some allow) exc1 enc hints
        = builtinSteps info trans (some allow) exc2 enc hints := by
      simp [builtinSteps, shouldInclude]
    unfold computeAttributeValues
    rw [hb]
  · intro info attrPrefix allow exc trans enc hints
    have hmap : (builtinSteps info trans (some allow) exc enc hints).map
        (fun s => s.2.1)
        = ["id".data, "name".data, "path".data, "line".data, "file".data,
           "component".data, "metadata".data, "sourcemap".data] := by
      simp [builtinSteps]
    have hnodup : ((builtinSteps info trans (some allow) exc enc hints).map
        (fun s => s.2.1)).Nodup := by
      rw [hmap]
      decide
    have hcv : computeAttributeValues info attrPrefix (some allow) exc trans
        Option.none enc hints
        = buildSteps (builtinSteps info trans (some allow) exc enc hints) := rfl
    rw [hcv, buildSteps_eq _ hnodup]
    simp only [builtinSteps, shouldInclude]
    simp only [filterMap_step_cons, List.filterMap_nil, keysOf, List.map_append,
      List.append_nil]
    simp [apply_ite (List.map Prod.fst)]

/-- Claim C6 (counterexample): with allowlist `['metadata']`, denylist
`['id']` and an element with no captured props or content, the emitted
attribute set is empty rather than equal to the allowlist — the claim's
"equals exactly the allowlist" fails for an attribute with nothing to
emit. -/
theorem attr_allowlist_cex :
    keysOf (computeAttributeValues
        ⟨"a.tsx".data, 3, 2, "a.tsx".data, "div".data, Option.none, Option.none⟩
        "data-dev".data (some [AttributeName.metadata]) (some [AttributeName.id])
        {} Option.none .json false) = [] ∧
    ([] : List (List Char)) ≠ ["metadata".data] := by
  exact ⟨by decide, by decide⟩

theorem mem_replaceAllChar {x c : Char} {r s : List Char}
    (h : x ∈ replaceAllChar c r s) : x ∈ r ∨ (x ∈ s ∧ x ≠ c) := by
  unfold replaceAllChar at h
  rw [List.mem_flatMap] at h
  obtain ⟨a, ha, hx⟩ := h
  by_cases hac : a = c
  · rw [if_pos hac] at hx
    exact Or.inl hx
  · rw [if_neg hac] at hx
    simp only [List.mem_singleton] at hx
    subst hx
    exact Or.inr ⟨ha, hac⟩

theorem not_mem_replaceAllChar_self {c : Char} {r : List Char} (s : List Char)
    (hr : ¬ c ∈ r) : ¬ c ∈ replaceAllChar c r s := by
  intro h
  rcases mem_replaceAllChar h with h1 | h2
  · exact hr h1
  · exact h2.2 rfl

theorem not_mem_replaceAllChar_keep {x c : Char} {r : List Char} {s : List Char}
    (hr : ¬ x ∈ r) (hs : ¬ x ∈ s) : ¬ x ∈ replaceAllChar c r s := by
  intro h
  rcases mem_replaceAllChar h with h1 | h2
  · exact hr h1
  · exact hs h2.1

theorem escapeHtml_no_lt (s : List Char) : ¬ '<' ∈ escapeHtml s := by
  unfold escapeHtml
  apply not_mem_replaceAllChar_keep (by decide)
  apply not_mem_replaceAllChar_keep (by decide)
  apply not_mem_replaceAllChar_keep (by decide)
  exact not_mem_replaceAllChar_self _ (by decide)

theorem replaceAllChar_append (c : Char) (r s t : List Char) :
    replaceAllChar c r (s ++ t) = replaceAllChar c r s ++ replaceAllChar c r t := by
  simp [replaceAllChar]

theorem escapeHtml_append (s t : List Char) :
    escapeHtml (s ++ t) = escapeHtml s ++ escapeHtml t := by
  simp [escapeHtml, replaceAllChar_append]

theorem escapeHtml_single (a : Char) : escapeHtml [a] = htmlEntityOf a := by
  by_cases h1 : a = '&'
  · subst h1; decide
  by_cases h2 : a = '<'
  · subst h2; decide
  by_cases h3 : a = '>'
  · subst h3; decide
  by_cases h4 : a = '"'
  · subst h4; decide
  by_cases h5 : a = '\''
  · subst h5; decide
  simp [escapeHtml, replaceAllChar, htmlEntityOf, h1, h2, h3, h4, h5]

theorem escapeHtml_eq_entityMap (s : List Char) :
    escapeHtml s = s.flatMap htmlEntityOf := by
  induction s with
  | nil => rfl
  | cons a t ih =>
    rw [show a :: t = [a] ++ t from rfl, escapeHtml_append, escapeHtml_single, ih]
    simp

theorem mem_of_containsSub {pat s : List Char} (h : containsSub pat s = true) :
    ∀ c, c ∈ pat → c ∈ s := by
  intro c hc
  unfold containsSub at h
  rw [List.any_eq_true] at h
  obtain ⟨i, _, hp⟩ := h
  have hpre := List.isPrefixOf_iff_prefix.mp hp
  exact List.mem_of_mem_drop (hpre.sublist.subset hc)

theorem containsSub_eq_false {pat s : List Char} {c : Char} (hc : c ∈ pat)
    (h : ¬ c ∈ s) : containsSub pat s = false := by
  cases hcs : containsSub pat s
  · rfl
  · exact absurd (mem_of_containsSub hcs c hc) h

theorem mem_joinSep {α : Type} {c : α} {sep : List α} {l : List (List α)}
    (h : c ∈ joinSep sep l) : c ∈ sep ∨ ∃ x, x ∈ l ∧ c ∈ x := by
  induction l with
  | nil => simp [joinSep] at h
  | cons x rest ih =>
    cases rest with
    | nil =>
      exact Or.inr ⟨x, List.mem_cons_self _ _, by simpa [joinSep] using h⟩
    | cons y ys =>
      rw [joinSep] at h
      rcases List.mem_append.mp h with h1 | h2
      · rcases List.mem_append.mp h1 with ha | hb
        · exact Or.inr ⟨x, List.mem_cons_self _ _, ha⟩
        · exact Or.inl hb
      · rcases ih h2 with h3 | ⟨z, hz, hcz⟩
        · exact Or.inl h3
        · exact Or.inr ⟨z, List.mem_cons_of_mem _ hz, hcz⟩

theorem formatAttributes_no_lt (attrPrefix : List Char)
    (m : List (List Char × List Char)) (enc : MetadataEncoding) (group : Bool)
    (hpre : ¬ '<' ∈ attrPrefix) (hkeys : ∀ k, k ∈ keysOf m → ¬ '<' ∈ k) :
    ¬ '<' ∈ formatAttributes attrPrefix m enc group := by
  intro h
  unfold formatAttributes at h
  cases group
  · rw [if_neg Bool.false_ne_true] at h
    dsimp only at h
    by_cases hlen : (m.map (fun kv =>
        attrPrefix ++ ('-' :: kv.1) ++ ('=' :: '"' :: (escapeHtml kv.2 ++ ['"'])))).length > 0
    · rw [if_pos hlen] at h
      rcases List.mem_cons.mp h with hsp | hjoin
      · exact absurd hsp (by decide)
      · rcases mem_joinSep hjoin with hsep | ⟨x, hx, hcx⟩
        · exact absurd hsep (by decide)
        · obtain ⟨kv, hkv, hxeq⟩ := List.mem_map.mp hx
          subst hxeq
          rcases List.mem_append.mp hcx with h1 | h2
          · rcases List.mem_append.mp h1 with ha | hb
            · exact hpre ha
            · rcases List.mem_cons.mp hb with hd | hk2
              · exact absurd hd (by decide)
              · exact hkeys kv.1 (List.mem_map_of_mem Prod.fst hkv) hk2
          · rcases List.mem_cons.mp h2 with he | h3
            · exact absurd he (by decide)
            · rcases List.mem_cons.mp h3 with hq | h4
              · exact absurd hq (by decide)
              · rcases List.mem_append.mp h4 with hesc | hquote
                · exact escapeHtml_no_lt kv.2 hesc
                · exact absurd hquote (by decide)
    · rw [if_neg hlen] at h
      simp at h
  · rw [if_pos rfl] at h
    dsimp only at h
    rcases List.mem_cons.mp h with hsp | hrest
    · exact absurd hsp (by decide)
    · rcases List.mem_append.mp hrest with ha | hb
      · exact hpre ha
      · rcases List.mem_cons.mp hb with he | h3
        · exact absurd he (by decide)
        · rcases List.mem_cons.mp h3 with hq | h4
          · exact absurd hq (by decide)
          · rcases List.mem_append.mp h4 with hesc | hquote
            · exact escapeHtml_no_lt _ hesc
            · exact absurd hquote (by decide)

/-- Claim C3 (confirmed): the five-step sequential `escapeHtml` is
exactly per-character HTML-attribute entity escaping (`& < > " '`), it is
applied to every attribute value (built-in or custom) immediately before
emission, and consequently — for any attribute values whatsoever,
including a custom value containing `"><script>` — the emitted attribute
string never contains an unescaped `<script>` tag (given that the
configured prefix and the attribute keys themselves contain no `<`). -/
theorem generateAttributes_escaped :
    (∀ v : List Char, escapeHtml v = v.flatMap htmlEntityOf) ∧
    (∀ (info : InternalComponentInfo) (attrPrefix : List Char)
        (includeA excludeA : Option (List AttributeName))
        (trans : AttributeTransformers)
        (custom : Option (ComponentInfoView → CustomAttrOutcome))
        (enc : MetadataEncoding) (hints group : Bool),
      ¬ '<' ∈ attrPrefix →
      (∀ k, k ∈ keysOf (computeAttributeValues info attrPrefix includeA excludeA
          trans custom enc hints) → ¬ '<' ∈ k) →
      containsSub "<script>".data
        (generateAttributes info attrPrefix includeA excludeA trans custom enc
          hints group) = false) := by
  refine ⟨escapeHtml_eq_entityMap, ?_⟩
  intro info attrPrefix includeA excludeA trans custom enc hints group hpre hkeys
  exact containsSub_eq_false (c := '<') (by decide)
    (formatAttributes_no_lt attrPrefix _ enc group hpre hkeys)

/-- Witness for `generateAttributes_escaped`: the XSS probe value
`"><script>alert(1)</script>` supplied as a custom attribute produces an
attribute string with no unescaped `<script>` occurrence. -/
theorem generateAttributes_escaped_witness :
    containsSub "<script>".data
      (generateAttributes
        ⟨"a.tsx".data, 3, 2, "a.tsx".data, "div".data, Option.none, Option.none⟩
        "data-dev".data Option.none Option.none {}
        (some (fun _ => CustomAttrOutcome.ok
          [("xss".data, "\"><script>alert(1)</script>".data)]))
        .json false false) = false :=
  generateAttributes_escaped.2
    ⟨"a.tsx".data, 3, 2, "a.tsx".data, "div".data, Option.none, Option.none⟩
    "data-dev".data Option.none Option.none {}
    (some (fun _ => CustomAttrOutcome.ok
      [("xss".data, "\"><script>alert(1)</script>".data)]))
    .json false false (by decide) (by decide)

theorem joinSep_append_single {α : Type} (sep : List α) (l : List (List α))
    (x : List α) (h : l ≠ []) :
    joinSep sep (l ++ [x]) = joinSep sep l ++ sep ++ x := by
  induction l with
  | nil => exact absurd rfl h
  | cons a rest ih =>
    cases rest with
    | nil => simp [joinSep]
    | cons b bs =>
      have h1 : (a :: b :: bs) ++ [x] = a :: ((b :: bs) ++ [x]) := rfl
      rw [h1]
      have h2 : (b :: bs) ++ [x] = b :: (bs ++ [x]) := rfl
      rw [h2, joinSep, ← h2, ih (by simp), joinSep]
      simp [List.append_assoc]

theorem jsonStringifyObj_append_len (entries : List (List Char × PropValue))
    (e : List Char × PropValue) (h : entries ≠ []) :
    (jsonStringifyObj (entries ++ [e])).length
      = (jsonStringifyObj entries).length + (jsonEntry e).length + 1 := by
  have hmap : entries.map jsonEntry ≠ [] := by
    simpa using h
  unfold jsonStringifyObj
  rw [List.map_append, List.map_singleton, joinSep_append_single _ _ _ hmap]
  simp [List.length_append]
  omega

theorem mem_objSet_self {α : Type} (m : List (List Char × α)) (k : List Char) (v : α) :
    (k, v) ∈ objSet m k v := by
  induction m with
  | nil => simp [objSet]
  | cons kv rest ih =>
    obtain ⟨k', v'⟩ := kv
    by_cases h : k' = k
    · simp [objSet, h]
    · simp only [objSet, if_neg h]
      exact List.mem_cons_of_mem _ ih

theorem joinSep_split {α : Type} (sep x : List α) :
    ∀ (l r : List (List α)), ∃ a b, joinSep sep (l ++ x :: r) = a ++ (x ++ b) := by
  intro l
  induction l with
  | nil =>
    intro r
    cases r with
    | nil => exact ⟨[], [], by simp [joinSep]⟩
    | cons y ys =>
      refine ⟨[], sep ++ joinSep sep (y :: ys), ?_⟩
      rw [List.nil_append, joinSep]
      simp [List.append_assoc]
  | cons a' rest ih =>
    intro r
    obtain ⟨a, b, hab⟩ := ih r
    cases hsplit : rest ++ x :: r with
    | nil => exact absurd hsplit (by simp)
    | cons y ys =>
      refine ⟨a' ++ sep ++ a, b, ?_⟩
      have h1 : (a' :: rest) ++ x :: r = a' :: y :: ys := by
        rw [List.cons_append, hsplit]
      rw [h1, joinSep, ← hsplit, hab]
      simp [List.append_assoc]

theorem containsSub_of_parts (a pat b : List Char) :
    containsSub pat (a ++ (pat ++ b)) = true := by
  unfold containsSub
  rw [List.any_eq_true]
  refine ⟨a.length, ?_, ?_⟩
  · rw [List.mem_range]
    simp [List.length_append]
    omega
  · rw [List.drop_left]
    exact List.isPrefixOf_iff_prefix.mpr (List.prefix_append _ _)

theorem hasSuffixSeq_append (pat x : List Char) :
    hasSuffixSeq pat (x ++ pat) = true := by
  unfold hasSuffixSeq
  have h : (x ++ pat).length - pat.length = x.length := by simp
  rw [h, List.drop_left]
  exact beq_self_eq_true _

theorem containsSub_entry_of_mem {e : List Char × PropValue}
    {entries : List (List Char × PropValue)} (h : e ∈ entries) :
    containsSub (jsonEntry e) (jsonStringifyObj entries) = true := by
  obtain ⟨l, r, rfl⟩ := List.append_of_mem h
  unfold jsonStringifyObj
  rw [List.map_append, List.map_cons]
  obtain ⟨a, b, hab⟩ := joinSep_split ",".data (jsonEntry e) (l.map jsonEntry)
    (r.map jsonEntry)
  rw [hab]
  have h2 : '{' :: ((a ++ (jsonEntry e ++ b)) ++ ['}'])
      = ('{' :: a) ++ (jsonEntry e ++ (b ++ ['}'])) := by
    simp [List.append_assoc]
  rw [h2]
  exact containsSub_of_parts _ _ _

theorem lookupVal_skip_step {α : Type} (c : Bool) (k : List Char) (v : α)
    (rest : List (List Char × α)) (k' : List Char) (h : ¬ k = k') :
    lookupVal ((if c then [(k, v)] else []) ++ rest) k' = lookupVal rest k' := by
  cases c <;> simp [lookupVal, h]

theorem lookupVal_hit_step {α : Type} (k : List Char) (v : α)
    (rest : List (List Char × α)) :
    lookupVal ([(k, v)] ++ rest) k = some v := by
  simp [lookupVal]

theorem lookupVal_hit_cond_step {α : Type} (c : Bool) (k : List Char) (v : α)
    (rest : List (List Char × α)) (h : c = true) :
    lookupVal ((if c then [(k, v)] else []) ++ rest) k = some v := by
  subst h
  simp [lookupVal]

theorem lookup_metadata_in_base (info : InternalComponentInfo) (attrPrefix : List Char)
    (includeA excludeA : Option (List AttributeName)) (trans : AttributeTransformers)
    (enc : MetadataEncoding) (hints : Bool)
    (hinc : shouldInclude includeA excludeA .metadata = true)
    (hne : metadataObject info ≠ []) :
    lookupVal (computeAttributeValues info attrPrefix includeA excludeA trans
        Option.none enc hints) "metadata".data
      = some (encodeMetadataValue enc (truncatedMetadataJson (metadataObject info))) := by
  have hmap : (builtinSteps info trans includeA excludeA enc hints).map
      (fun s => s.2.1)
      = ["id".data, "name".data, "path".data, "line".data, "file".data,
         "component".data, "metadata".data, "sourcemap".data] := by
    simp [builtinSteps]
  have hnodup : ((builtinSteps info trans includeA excludeA enc hints).map
      (fun s => s.2.1)).Nodup := by
    rw [hmap]
    decide
  have hcv : computeAttributeValues info attrPrefix includeA excludeA trans
      Option.none enc hints
      = buildSteps (builtinSteps info trans includeA excludeA enc hints) := rfl
  have hcond : (shouldInclude includeA excludeA .metadata
      && !(metadataObject info).isEmpty) = true := by
    rw [hinc]
    cases hmo : metadataObject info with
    | nil => exact absurd hmo hne
    | cons a rest => simp
  rw [hcv, buildSteps_eq _ hnodup]
  simp only [builtinSteps]
  simp only [filterMap_step_cons, List.filterMap_nil]
  rw [lookupVal_skip_step _ _ _ _ _ (by decide)]
  rw [lookupVal_skip_step _ _ _ _ _ (by decide)]
  rw [lookupVal_skip_step _ _ _ _ _ (by decide)]
  rw [lookupVal_skip_step _ _ _ _ _ (by decide)]
  rw [lookupVal_skip_step _ _ _ _ _ (by decide)]
  rw [lookupVal_skip_step _ _ _ _ _ (by decide)]
  exact lookupVal_hit_cond_step _ _ _ _ hcond

/-- Claim C2 (amended): whenever the serialized metadata JSON exceeds the
10240-character cap, every encoding mode (`json`, `base64`, `none`)
derives the emitted metadata value from the same re-serialized string,
which is bounded by the cap and contains a truncation marker (the
`...[truncated]` sentinel or the `"_truncated":true` field); when the
metadata did not already contain a literal `_truncated` prop, that capped
string moreover has length exactly 10236 and ends in the
`...[truncated]"}` sentinel. -/
theorem metadata_cap_uniform (entries : List (List Char × PropValue))
    (enc : MetadataEncoding)
    (hbig : (jsonStringifyObj entries).length > MAX_METADATA_SIZE) :
    (truncatedMetadataJson entries).length ≤ MAX_METADATA_SIZE ∧
    (containsSub "...[truncated]".data (truncatedMetadataJson entries) = true ∨
      containsSub "\"_truncated\":true".data (truncatedMetadataJson entries) = true) ∧
    (lookupVal entries "_truncated".data = none →
      (truncatedMetadataJson entries).length = 10236 ∧
      hasSuffixSeq "...[truncated]\"\x7d".data (truncatedMetadataJson entries) = true) ∧
    (∀ (info : InternalComponentInfo) (attrPrefix : List Char)
        (includeA excludeA : Option (List AttributeName))
        (trans : AttributeTransformers) (hints : Bool),
      metadataObject info = entries →
      shouldInclude includeA excludeA .metadata = true →
      lookupVal (computeAttributeValues info attrPrefix includeA excludeA trans
          Option.none enc hints) "metadata".data
        = some (encodeMetadataValue enc (truncatedMetadataJson entries))) := by
  have hne : entries ≠ [] := by
    rintro rfl
    revert hbig
    decide
  have h4 : ∀ (info : InternalComponentInfo) (attrPrefix : List Char)
      (includeA excludeA : Option (List AttributeName))
      (trans : AttributeTransformers) (hints : Bool),
      metadataObject info = entries →
      shouldInclude includeA excludeA .metadata = true →
      lookupVal (computeAttributeValues info attrPrefix includeA excludeA trans
          Option.none enc hints) "metadata".data
        = some (encodeMetadataValue enc (truncatedMetadataJson entries)) := by
    intro info attrPrefix includeA excludeA trans hints hmeta hinc
    have hne2 : metadataObject info ≠ [] := by
      rw [hmeta]
      exact hne
    rw [← hmeta]
    exact lookup_metadata_in_base info attrPrefix includeA excludeA trans enc hints
      hinc hne2
  have hdef : truncatedMetadataJson entries
      = (if (jsonStringifyObj (objSet entries "_truncated".data .boolTrue)).length
            > MAX_METADATA_SIZE then
          (jsonStringifyObj (objSet entries "_truncated".data .boolTrue)).take
              (MAX_METADATA_SIZE - 20) ++ "...[truncated]\"\x7d".data
        else jsonStringifyObj (objSet entries "_truncated".data .boolTrue)) := by
    simp only [truncatedMetadataJson]
    rw [if_pos hbig]
  by_cases hw : (jsonStringifyObj
      (objSet entries "_truncated".data .boolTrue)).length > MAX_METADATA_SIZE
  · have hres : truncatedMetadataJson entries
        = (jsonStringifyObj (objSet entries "_truncated".data .boolTrue)).take
            (MAX_METADATA_SIZE - 20) ++ "...[truncated]\"\x7d".data := by
      rw [hdef, if_pos hw]
    have hMAX : MAX_METADATA_SIZE = 10240 := rfl
    have hlen : (truncatedMetadataJson entries).length = 10236 := by
      rw [hres]
      rw [List.length_append, List.length_take]
      have hsent : ("...[truncated]\"\x7d".data).length = 16 := by decide
      have hWlen : MAX_METADATA_SIZE - 20
          ≤ (jsonStringifyObj
              (objSet entries "_truncated".data PropValue.boolTrue)).length := by
        rw [hMAX] at hw ⊢
        omega
      rw [Nat.min_eq_left hWlen, hsent, hMAX]
    refine ⟨by omega, Or.inl ?_, fun _ => ⟨hlen, ?_⟩, h4⟩
    · rw [hres, show "...[truncated]\"\x7d".data
          = "...[truncated]".data ++ "\"\x7d".data from by decide]
      exact containsSub_of_parts _ _ _
    · rw [hres]
      exact hasSuffixSeq_append _ _
  · have hres : truncatedMetadataJson entries
        = jsonStringifyObj (objSet entries "_truncated".data .boolTrue) := by
      rw [hdef, if_neg hw]
    refine ⟨?_, Or.inr ?_, fun hnone => ?_, h4⟩
    · rw [hres]
      exact Nat.le_of_not_lt hw
    · rw [hres]
      have hm := containsSub_entry_of_mem
        (mem_objSet_self entries "_truncated".data .boolTrue)
      rwa [show jsonEntry ("_truncated".data, PropValue.boolTrue)
          = "\"_truncated\":true".data from by decide] at hm
    · exfalso
      have hW : objSet entries "_truncated".data PropValue.boolTrue
          = entries ++ [("_truncated".data, PropValue.boolTrue)] :=
        objSet_eq_append _ _ _ hnone
      have hlen2 := jsonStringifyObj_append_len entries
        ("_truncated".data, PropValue.boolTrue) hne
      rw [hW, hlen2] at hw
      have hentry : (jsonEntry ("_truncated".data, PropValue.boolTrue)).length = 17 := by
        decide
      have hMAX : MAX_METADATA_SIZE = 10240 := rfl
      rw [hMAX] at hw hbig
      omega

theorem jsonEscape_replicate_x (n : Nat) :
    jsonEscape (List.replicate n 'x') = List.replicate n 'x' := by
  induction n with
  | zero => rfl
  | succ n ih =>
    rw [List.replicate_succ]
    have hx : jsonEscapeChar 'x' = ['x'] := by decide
    simp only [jsonEscape, List.flatMap_cons] at ih ⊢
    rw [hx, ih]
    rfl

theorem jsonStringifyObj_single_len (k s : List Char) :
    (jsonStringifyObj [(k, PropValue.str s)]).length
      = (jsonQuote k).length + (jsonQuote s).length + 3 := by
  simp [jsonStringifyObj, joinSep, jsonEntry, List.length_append]
  omega

theorem jsonQuote_replicate_x_len (n : Nat) :
    (jsonQuote (List.replicate n 'x')).length = n + 2 := by
  simp [jsonQuote, List.length_append, jsonEscape_replicate_x, List.length_replicate]

/-- Witness for `metadata_cap_uniform`: a single captured prop `a` whose
string value is 10300 `x` characters pushes the serialized metadata to
10308 characters; the capped string is within the 10 KiB limit, ends in
the truncation sentinel, and is what the `base64` mode encodes. -/
theorem metadata_cap_uniform_witness :
    MAX_METADATA_SIZE
      < (jsonStringifyObj [("a".data, PropValue.str (List.replicate 10300 'x'))]).length ∧
    (truncatedMetadataJson
        [("a".data, PropValue.str (List.replicate 10300 'x'))]).length
      ≤ MAX_METADATA_SIZE ∧
    hasSuffixSeq "...[truncated]\"\x7d".data
      (truncatedMetadataJson [("a".data, PropValue.str (List.replicate 10300 'x'))])
      = true ∧
    lookupVal (computeAttributeValues
        ⟨"a.tsx".data, 3, 2, "a.tsx".data, "div".data,
          some [("a".data, PropValue.str (List.replicate 10300 'x'))], Option.none⟩
        "data-dev".data Option.none Option.none {} Option.none .base64 false)
        "metadata".data
      = some (encodeMetadataValue .base64
          (truncatedMetadataJson [("a".data, PropValue.str (List.replicate 10300 'x'))])) := by
  have hqa : (jsonQuote "a".data).length = 3 := by decide
  have hbigW : (jsonStringifyObj
      [("a".data, PropValue.str (List.replicate 10300 'x'))]).length
      > MAX_METADATA_SIZE := by
    rw [jsonStringifyObj_single_len, hqa, jsonQuote_replicate_x_len]
    decide
  have h := metadata_cap_uniform
    [("a".data, PropValue.str (List.replicate 10300 'x'))] .base64 hbigW
  refine ⟨hbigW, h.1, (h.2.2.1 (by decide)).2, ?_⟩
  exact h.2.2.2
    ⟨"a.tsx".data, 3, 2, "a.tsx".data, "div".data,
      some [("a".data, PropValue.str (List.replicate 10300 'x'))], Option.none⟩
    "data-dev".data Option.none Option.none {} false rfl (by decide)

/-- Claim C2 (counterexample): the claim asserts the capped string always
ends in a truncation sentinel, but for an element whose captured props
already contain a literal `_truncated` key with an oversized string
value, the re-serialization `{ ...metadata, _truncated: true }` replaces
that value by `true`, drops under the cap, and is used as-is: bounded and
carrying the `"_truncated":true` marker, but not ending in the
`...[truncated]"}` sentinel. -/
theorem metadata_sentinel_cex :
    (jsonStringifyObj
        [("_truncated".data, PropValue.str (List.replicate 10300 'x'))]).length
      > MAX_METADATA_SIZE ∧
    truncatedMetadataJson
        [("_truncated".data, PropValue.str (List.replicate 10300 'x'))]
      = "\x7b\"_truncated\":true\x7d".data ∧
    hasSuffixSeq "...[truncated]\"\x7d".data
      (truncatedMetadataJson
        [("_truncated".data, PropValue.str (List.replicate 10300 'x'))])
      = false := by
  have hqk : (jsonQuote "_truncated".data).length = 12 := by decide
  have hbigF : (jsonStringifyObj
      [("_truncated".data, PropValue.str (List.replicate 10300 'x'))]).length
      > MAX_METADATA_SIZE := by
    rw [jsonStringifyObj_single_len, hqk, jsonQuote_replicate_x_len]
    decide
  have hW : jsonStringifyObj
      (objSet [("_truncated".data, PropValue.str (List.replicate 10300 'x'))]
        "_truncated".data PropValue.boolTrue)
      = "\x7b\"_truncated\":true\x7d".data := by decide
  have hres : truncatedMetadataJson
      [("_truncated".data, PropValue.str (List.replicate 10300 'x'))]
      = "\x7b\"_truncated\":true\x7d".data := by
    simp only [truncatedMetadataJson]
    rw [if_pos hbigF, hW, if_neg (by decide)]
  refine ⟨hbigF, hres, ?_⟩
  rw [hres]
  decide
